import Mathlib

/-!
Verification of the query-engine core of the `daad` catalogue server
(`server.js`, the only JS source file with non-trivial logic).

The embedding is shallow: JS strings are `List Char` (all inputs of
interest are ASCII/BMP, where Lean scalar values coincide with UTF-16
code units), JS numbers that flow through `parseInt`/`Math.max`/
`Math.min`/array indexing are modelled as `JsNum` (an integer or NaN;
the server only ever produces integers or NaN in those positions),
and parsed JSON record values are modelled by the inductive `JsValue`
with integer numerics (no float-specific behaviour is exercised by the
verified properties).  Fallible operations return `Option`.
-/

/-- JS strings, as lists of unicode scalar values. -/
abbrev Str := List Char

/-- Coerce a Lean string literal to the `Str` representation. -/
def strL (s : String) : Str := s.data

/-- JS whitespace class `\s` (the members that occur in practice;
exotic Unicode space separators beyond NBSP/BOM are omitted -- none of
the verified properties involves them). -/
def jsIsWs (c : Char) : Bool :=
  c = ' ' || c = '\t' || c = '\n' || c = '\r' || c = '\x0b' || c = '\x0c' ||
  c = ' ' || c = '﻿'

/-- JS line terminators (the characters not matched by `.` in a regex). -/
def isLineTerm (c : Char) : Bool :=
  c = '\n' || c = '\r' || c = ' ' || c = ' '

/-- JS `String.prototype.trim`: strip whitespace from both ends. -/
def jsTrim (s : Str) : Str :=
  ((s.dropWhile jsIsWs).reverse.dropWhile jsIsWs).reverse

/-- JS `String.prototype.toLowerCase` (ASCII range, which covers every
string the verified properties touch). -/
def toLowerL (s : Str) : Str := s.map Char.toLower

/-- JS `a.split(/\s+/)`: each maximal whitespace run is one separator;
a leading (resp. trailing) run contributes a leading (resp. trailing)
empty piece, exactly as in JS. -/
def splitWs : Str → List Str
  | [] => [[]]
  | c :: rest =>
    let r := splitWs rest
    if jsIsWs c then
      match rest with
      | [] => [[], []]
      | c2 :: _ => if jsIsWs c2 then r else [] :: r
    else
      match r with
      | [] => [[c]]
      | h :: t => (c :: h) :: t

/-- JS `Array.prototype.join(' ')`. -/
def joinSp (l : List Str) : Str := List.intercalate [' '] l

/-- JS `text.split(/\r?\n/)`: a line break is `\n` or `\r\n`; a lone `\r`
does not break a line. -/
def splitCRLF : Str → List Str
  | [] => [[]]
  | '\r' :: '\n' :: rest => [] :: splitCRLF rest
  | '\n' :: rest => [] :: splitCRLF rest
  | c :: rest =>
    match splitCRLF rest with
    | [] => [[c]]
    | h :: t => (c :: h) :: t

/-- Lexicographic (code-unit) comparison backing JS `<` on strings. -/
def strLt : Str → Str → Bool
  | _, [] => false
  | [], _ :: _ => true
  | a :: as, b :: bs => if a = b then strLt as bs else decide (a < b)

/-- JS `>=` on strings. -/
def strGe (a b : Str) : Bool := !(strLt a b)

/-- The numbers the server's query-parameter pipeline can produce:
an integer or NaN (`parseInt` on radix 10 yields one of these). -/
inductive JsNum where
  | nan : JsNum
  | int (i : Int) : JsNum
deriving DecidableEq

def jsAdd : JsNum → JsNum → JsNum
  | .int a, .int b => .int (a + b)
  | _, _ => .nan

def jsSub : JsNum → JsNum → JsNum
  | .int a, .int b => .int (a - b)
  | _, _ => .nan

def jsMul : JsNum → JsNum → JsNum
  | .int a, .int b => .int (a * b)
  | _, _ => .nan

/-- JS `Math.max` (binary): NaN if either argument is NaN. -/
def jsMax : JsNum → JsNum → JsNum
  | .int a, .int b => .int (max a b)
  | _, _ => .nan

/-- JS `Math.min` (binary): NaN if either argument is NaN. -/
def jsMin : JsNum → JsNum → JsNum
  | .int a, .int b => .int (min a b)
  | _, _ => .nan

def digitsVal (ds : Str) : Nat :=
  ds.foldl (fun acc c => acc * 10 + (c.toNat - 48)) 0

def parseDigits (rest : Str) (neg : Bool) : JsNum :=
  let ds := rest.takeWhile Char.isDigit
  if ds.isEmpty then .nan
  else .int ((if neg then -1 else 1) * (digitsVal ds : Int))

/-- JS `parseInt(s, 10)`: skip leading whitespace, optional sign, then the
longest prefix of decimal digits; NaN if there is none. -/
def jsParseInt (s : Str) : JsNum :=
  match s.dropWhile jsIsWs with
  | '-' :: rest => parseDigits rest true
  | '+' :: rest => parseDigits rest false
  | rest => parseDigits rest false

/-- Decimal digits of `n`, by fuelled division (fuel `n+1` always
suffices, keeping the definition structurally recursive). -/
def natToStrAux : Nat → Nat → Str
  | 0, _ => []
  | f + 1, n =>
    if n < 10 then [Char.ofNat (48 + n)]
    else natToStrAux f (n / 10) ++ [Char.ofNat (48 + n % 10)]

def natToStr (n : Nat) : Str := natToStrAux (n + 1) n

/-- JS `String(i)` for an integer. -/
def intToStr : Int → Str
  | .ofNat n => natToStr n
  | .negSucc n => '-' :: natToStr (n + 1)

/-- Parsed JSON values (the line-delimited sources are parsed with
`JSON.parse`).  Numbers are modelled as integers: every numeric field
the verified properties touch (identifiers, degree levels) is integral,
and no float-specific behaviour is exercised. -/
inductive JsValue where
  | null : JsValue
  | bool (b : Bool) : JsValue
  | num (n : Int) : JsValue
  | str (s : Str) : JsValue
  | arr (l : List JsValue) : JsValue
  | obj (fields : List (Str × JsValue)) : JsValue

/-- JS truthiness of a value. -/
def truthyV : JsValue → Bool
  | .null => false
  | .bool b => b
  | .num n => n != 0
  | .str s => !s.isEmpty
  | .arr _ => true
  | .obj _ => true

/-- JS truthiness of a possibly-undefined value (`none` = `undefined`). -/
def optTruthy : Option JsValue → Bool
  | none => false
  | some v => truthyV v

mutual

/-- JS `String(v)`. -/
def jsToString : JsValue → Str
  | .null => strL "null"
  | .bool true => strL "true"
  | .bool false => strL "false"
  | .num n => intToStr n
  | .str s => s
  | .arr l => jsToStringArr l
  | .obj _ => strL "[object Object]"
termination_by structural v => v

/-- JS `Array.prototype.join(',')` over converted elements: null elements
become empty, others are converted with `String`. -/
def jsToStringArr : List JsValue → Str
  | [] => []
  | [.null] => []
  | [v] => jsToString v
  | .null :: rest => ',' :: jsToStringArr rest
  | v :: rest => jsToString v ++ ',' :: jsToStringArr rest
termination_by structural l => l
end

/-- Property read `v[k]`, `none` meaning `undefined`.  On an object it
is the stored field; primitives have none of the fields the server
reads.  (In JS a property read on `null` throws; the server only
guards against that for detail records -- the theorems below quantify
over records on which no read throws, which their hypotheses make
explicit.) -/
def jsGetProp (v : JsValue) (k : Str) : Option JsValue :=
  match v with
  | .obj fs =>
    match fs.find? (fun p => p.1 == k) with
    | some p => some p.2
    | none => none
  | _ => none

/-- JS `a || b` on values, with `a` possibly undefined: first truthy
operand, else the final operand. -/
def jsOrV (a : Option JsValue) (b : JsValue) : JsValue :=
  match a with
  | some v => if truthyV v then v else b
  | none => b

/-- Optional-chain step `x?.k`: undefined when the base is
null/undefined, otherwise the property read. -/
def vGet (o : Option JsValue) (k : Str) : Option JsValue :=
  match o with
  | none => none
  | some .null => none
  | some v => jsGetProp v k

/-- SameValueZero, the key equality of a JS `Map`.  On primitives it is
value equality of same-typed values.  Arrays and objects compare by
reference; every array/object key the server could put in its map
comes from a distinct `JSON.parse` line, hence a distinct reference, so
two such keys are never equal (and the map is only written, never read,
between the two uses, so self-comparison of an object key never
arises). -/
def svzEq : JsValue → JsValue → Bool
  | .null, .null => true
  | .bool a, .bool b => a == b
  | .num a, .num b => a == b
  | .str a, .str b => a == b
  | _, _ => false

/-- Is the value a primitive (where `svzEq` is reflexive)? -/
def JsValue.primitiveB : JsValue → Bool
  | .arr _ => false
  | .obj _ => false
  | _ => true

/-- JS `ToNumber` on a string, integral fragment: trimmed empty string is
0, an optional sign followed only by digits is that integer, anything
else is NaN (`none`).  (Fractional/exponent/hex forms are NaN-free
refinements never exercised here.) -/
def strToIntFull (s : Str) : Option Int :=
  match jsTrim s with
  | [] => some 0
  | '-' :: rest =>
    if !rest.isEmpty && rest.all Char.isDigit then some (-(digitsVal rest : Int)) else none
  | '+' :: rest =>
    if !rest.isEmpty && rest.all Char.isDigit then some (digitsVal rest : Int) else none
  | rest =>
    if rest.all Char.isDigit then some (digitsVal rest : Int) else none

/-- JS loose equality `==` on the value shapes that can appear as
identifiers (primitives; mixed number/string compares the number with
`ToNumber` of the string, booleans convert to numbers first).
Object/array operands (which would compare by reference or via
`ToPrimitive`) never compare loosely equal to a fresh parsed value, and
are not needed by any property below. -/
def jsLooseEq : JsValue → JsValue → Bool
  | .null, .null => true
  | .bool a, .bool b => a == b
  | .num a, .num b => a == b
  | .str a, .str b => a == b
  | .num a, .str s => match strToIntFull s with | some b => a == b | none => false
  | .str s, .num a => match strToIntFull s with | some b => a == b | none => false
  | .bool a, .num n => (if a then (1 : Int) else 0) == n
  | .num n, .bool a => (if a then (1 : Int) else 0) == n
  | .bool a, .str s => match strToIntFull s with | some b => (if a then (1 : Int) else 0) == b | none => false
  | .str s, .bool a => match strToIntFull s with | some b => (if a then (1 : Int) else 0) == b | none => false
  | _, _ => false

/-- JS `hay.includes(needle)`: substring containment. -/
def strIncludes : Str → Str → Bool
  | [], needle => needle.isEmpty
  | h :: t, needle => needle.isPrefixOf (h :: t) || strIncludes t needle

/-- Matching of `\s*(.+)$` against the remainder after the colon in
`cleanTitle`'s regex `/^(.+?):\s*(.+)$/`: the greedy whitespace run
backtracks just enough to leave a non-empty dot-matchable group.
Returns group 2, or `none` if the remainder cannot match. -/
def tryTail (tail : Str) : Option Str :=
  let rem := tail.dropWhile jsIsWs
  if rem.isEmpty then
    match tail.getLast? with
    | some c => if isLineTerm c then none else some [c]
    | none => none
  else if rem.any isLineTerm then none else some rem

/-- Scanner for `/^(.+?):\s*(.+)$/` on a string with no trailing line
terminator (`cleanTitle` applies it to a trimmed string): the lazy
group 1 grows from the left; at each colon with a non-empty group 1 the
tail pattern is tried; characters consumed by group 1 must be
dot-matchable. -/
def jsColonMatchAux (pre rest : Str) : Option (Str × Str) :=
  match rest with
  | [] => none
  | c :: cs =>
    if c = ':' && !pre.isEmpty then
      match tryTail cs with
      | some m2 => some (pre.reverse, m2)
      | none => jsColonMatchAux (c :: pre) cs
    else if isLineTerm c then none
    else jsColonMatchAux (c :: pre) cs

/-- JS `s.match(/^(.+?):\s*(.+)$/)`, returning `(group 1, group 2)`. -/
def jsColonMatch (s : Str) : Option (Str × Str) := jsColonMatchAux [] s

/-- Does the colon rule of `cleanTitle` fire on (already trimmed) `s`:
the regex matches and `A.toLowerCase().includes(B.toLowerCase())` with
`A`,`B` the trimmed groups. -/
def colonFires (s : Str) : Bool :=
  match jsColonMatch s with
  | some (m1, m2) => strIncludes (toLowerL (jsTrim m1)) (toLowerL (jsTrim m2))
  | none => false

/-- The suffix-window loop of `cleanTitle`: for `k` from the given
start down to 2, split off the last `k` words (`words.slice(-k)`,
`words.slice(0,-k)` -- the truncated subtraction mirrors the JS slice
clamping) and return the trimmed prefix at the first `k` whose
lowercased prefix contains the lowercased suffix; else the input. -/
def windowGo (words : List Str) (s : Str) : Nat → Str
  | 0 => s
  | 1 => s
  | k + 2 =>
    let sfx := joinSp (words.drop (words.length - (k + 2)))
    let pfx := joinSp (words.take (words.length - (k + 2)))
    if strIncludes (toLowerL pfx) (toLowerL sfx) then jsTrim pfx
    else windowGo words s (k + 1)

/-- The word-splitting phase of `cleanTitle` on the trimmed string. -/
def windowPart (s : Str) : Str :=
  let words := splitWs s
  windowGo words s (min 8 (words.length / 2))

/-- Source `cleanTitle` on a string (after the `String(s||'')` coercion):
trim; empty stays empty; colon rule first, then the suffix-window
loop. -/
def cleanTitleStr (s0 : Str) : Str :=
  let s := jsTrim s0
  if s.isEmpty then s
  else
    match jsColonMatch s with
    | some (m1, m2) =>
      let A := jsTrim m1
      let B := jsTrim m2
      if strIncludes (toLowerL A) (toLowerL B) then A
      else windowPart s
    | none => windowPart s

/-- Source `cleanTitle(v)` on an arbitrary value: `String(s||'')` then the
string algorithm. -/
def cleanTitleV (v : JsValue) : Str :=
  cleanTitleStr (if truthyV v then jsToString v else [])

/-- The descending window lengths `[k, k-1, ..., 2]` tried by the
suffix-window rule (empty below 2). -/
def ksDesc : Nat → List Nat
  | 0 => []
  | 1 => []
  | k + 2 => (k + 2) :: ksDesc (k + 1)

/-- The suffix-window rule as the specification states it: split into
words; try window lengths from `min(8, floor(n/2))` down to `2`,
largest first; at the first `k` whose lowercased prefix (all but the
last `k` words) contains the lowercased suffix (last `k` words) return
the prefix trimmed; if no `k` matches return the (trimmed) string. -/
def suffixWindowSpec (s : Str) : Str :=
  let words := splitWs s
  let n := words.length
  match (ksDesc (min 8 (n / 2))).find?
      (fun k => strIncludes (toLowerL (joinSp (words.take (n - k))))
        (toLowerL (joinSp (words.drop (n - k))))) with
  | some k => jsTrim (joinSp (words.take (n - k)))
  | none => s

/-- Source `getTitle(country, p)`: per-origin field selection; the germany,
sweden and finland branches pass through `cleanTitle` (hence return a
string), the netherlands branch returns the raw field value. -/
def getTitleVal (country : Str) (p : JsValue) : JsValue :=
  if country == strL "germany" then
    .str (cleanTitleV (jsOrV (jsGetProp p (strL "programme_title"))
      (jsOrV (jsGetProp p (strL "title")) (.str []))))
  else if country == strL "netherlands" then
    jsOrV (jsGetProp p (strL "name"))
      (jsOrV (jsGetProp p (strL "title")) (jsOrV (jsGetProp p (strL "programTitle")) (.str [])))
  else if country == strL "sweden" then
    .str (cleanTitleV (jsOrV (jsGetProp p (strL "title"))
      (jsOrV (jsGetProp p (strL "programme_title"))
        (jsOrV (jsGetProp p (strL "header_line")) (.str [])))))
  else if country == strL "finland" then
    .str (cleanTitleV (jsOrV (jsGetProp p (strL "title"))
      (jsOrV (vGet (vGet (jsGetProp p (strL "detail")) (strL "nimi")) (strL "en"))
        (jsOrV (vGet (vGet (jsGetProp p (strL "detail")) (strL "nimi")) (strL "fi")) (.str [])))))
  else .str []

/-- JS `String(queryParam || 'dflt')` for an optional string parameter:
missing or empty gives the default. -/
def paramStr (o : Option Str) (dflt : Str) : Str :=
  match o with
  | none => dflt
  | some s => if s.isEmpty then dflt else s

/-- Source `Math.max(1, parseInt(...))` applied to the page number. -/
def clampPage (x : JsNum) : JsNum := jsMax (.int 1) x

/-- Source `Math.min(50, Math.max(1, parseInt(...)))` applied to the page
size. -/
def clampPageSize (x : JsNum) : JsNum := jsMin (.int 50) (jsMax (.int 1) x)

/-- JS `Array.prototype.slice` index resolution (ToIntegerOrInfinity +
clamping): NaN resolves to 0, a negative index counts from the end,
and the result is clamped to `[0, n]`. -/
def resolveIdx (x : JsNum) (n : Nat) : Nat :=
  match x with
  | .nan => 0
  | .int i => if i < 0 then ((n : Int) + i).toNat else min i.toNat n

/-- JS `l.slice(a, b)`: the elements from resolved index `a` (inclusive)
to resolved index `b` (exclusive). -/
def jsSlice (l : List α) (a b : JsNum) : List α :=
  (l.take (resolveIdx b l.length)).drop (resolveIdx a l.length)

/-- The `{data, total, page, pageSize}` part of a query response. -/
structure Page (α : Type) where
  data : List α
  total : Nat
  page : JsNum
  pageSize : JsNum

/-- The pagination tail shared verbatim by both handlers:
`total = arr.length; start = (page-1)*pageSize;
data = arr.slice(start, start+pageSize)`. -/
def paginate (l : List α) (page pageSize : JsNum) : Page α :=
  let start := jsMul (jsSub page (.int 1)) pageSize
  { data := jsSlice l start (jsAdd start pageSize)
    total := l.length
    page := page
    pageSize := pageSize }

/-- The `COUNTRY_FILES` own properties. -/
def COUNTRY_FILES : List (Str × Str) :=
  [(strL "germany", strL "daad_programmes.jsonl"),
   (strL "netherlands", strL "nl_programs.jsonl"),
   (strL "sweden", strL "sweden_rendered_all.jsonl"),
   (strL "finland", strL "studyinfoFin_programmes.jsonl")]

def lookupAssoc (m : List (Str × Str)) (k : Str) : Option Str :=
  match m.find? (fun p => p.1 == k) with
  | some p => some p.2
  | none => none

/-- The string-keyed properties every object literal inherits from
`Object.prototype`: `COUNTRY_FILES[country]` yields a truthy
non-string value for these keys instead of `undefined`. -/
def objectProtoKeys : List Str :=
  [strL "constructor", strL "__proto__", strL "hasOwnProperty",
   strL "isPrototypeOf", strL "propertyIsEnumerable", strL "toLocaleString",
   strL "toString", strL "valueOf", strL "__defineGetter__",
   strL "__defineSetter__", strL "__lookupGetter__", strL "__lookupSetter__"]

/-- Source `String(req.query.country || 'germany').toLowerCase()`. -/
def rawCountry (cp : Option Str) : Str := toLowerL (paramStr cp (strL "germany"))

/-- Outcome of the country dispatch in `GET /api/courses`:
`COUNTRY_FILES[country]` is an own property (a file name, truthy,
proceed to load), an inherited `Object.prototype` member (truthy but
not a string, so the 400 branch is skipped and `path.join` throws a
TypeError that the handler's catch turns into a 500), or `undefined`
(falsy, 400 Unsupported country). -/
inductive CountryGate where
  | load (country file : Str) : CountryGate
  | protoCrash : CountryGate
  | reject : CountryGate
deriving DecidableEq

def courseCountryGate (cp : Option Str) : CountryGate :=
  let country := rawCountry cp
  match lookupAssoc COUNTRY_FILES country with
  | some f => .load country f
  | none =>
    if objectProtoKeys.contains country then .protoCrash else .reject

/-- The text filter of `GET /api/courses`:
`(getTitle(country, p) || '').toLowerCase().includes(q)`.  (A truthy
non-string netherlands title would make `toLowerCase` throw in JS; the
conversion here is only exercised on string titles.) -/
def courseMatch (country : Str) (q : Str) (p : JsValue) : Bool :=
  strIncludes (toLowerL (jsToString (jsOrV (some (getTitleVal country p)) (.str [])))) q

/-- The filter+paginate pipeline of `GET /api/courses` after the
country gate, over the loaded records. -/
def coursesQuery (country : Str) (all : List JsValue) (qP pP psP : Option Str) : Page JsValue :=
  let q := toLowerL (jsTrim (paramStr qP []))
  let page := clampPage (jsParseInt (paramStr pP (strL "1")))
  let pageSize := clampPageSize (jsParseInt (paramStr psP (strL "20")))
  let filtered := if q.isEmpty then all else all.filter (courseMatch country q)
  paginate filtered page pageSize

/-- Response of `GET /api/courses`. -/
inductive CourseResp where
  | badRequest : CourseResp
  | serverError : CourseResp
  | ok (page : Page JsValue) (country : Str) : CourseResp

/-- Handler `GET /api/courses`, with the filesystem abstracted as a map from
file name to its loaded record list (`loadJsonl` is verified
separately). -/
def courseHandler (cp : Option Str) (fs : Str → List JsValue)
    (qP pP psP : Option Str) : CourseResp :=
  match courseCountryGate cp with
  | .load country f => .ok (coursesQuery country (fs f) qP pP psP) country
  | .protoCrash => .serverError
  | .reject => .badRequest

/-- Source `loadJsonl`: split the text on `/\r?\n/`, skip lines that trim to
empty, `JSON.parse` each remaining line pushing successes and silently
skipping failures.  The parser is a parameter (its grammar is
irrelevant to the loader's contract). -/
def loadJsonl (parse : Str → Option JsValue) (text : Str) : List JsValue :=
  (splitCRLF text).foldl
    (fun out line =>
      if (jsTrim line).isEmpty then out
      else
        match parse line with
        | some v => out ++ [v]
        | none => out)
    []

/-- Source `d.id ?? d.scholarship_id`. -/
def recId (v : JsValue) : Option JsValue :=
  match jsGetProp v (strL "id") with
  | some .null => jsGetProp v (strL "scholarship_id")
  | some x => some x
  | none => jsGetProp v (strL "scholarship_id")

/-- The identifier used as a map key, `none` when the record is
skipped (`did === undefined || did === null`). -/
def recIdSkip (v : JsValue) : Option JsValue :=
  match recId v with
  | some .null => none
  | x => x

/-- The steps list of a detail record: `d.steps` if it is an array,
else `d.application_steps` if that is an array, else `[]`. -/
def stepsOf (d : JsValue) : List JsValue :=
  match jsGetProp d (strL "steps") with
  | some (.arr l) => l
  | _ =>
    match jsGetProp d (strL "application_steps") with
    | some (.arr l) => l
    | _ => []

/-- JS `Map.prototype.get` on an association list with SameValueZero key
equality. -/
def mapGet (m : List (JsValue × List JsValue)) (k : JsValue) : Option (List JsValue) :=
  match m.find? (fun p => svzEq p.1 k) with
  | some p => some p.2
  | none => none

/-- JS `Map.prototype.set`: overwrite the value at an existing
(SameValueZero-equal) key in place, else append a new entry. -/
def mapSet : List (JsValue × List JsValue) → JsValue → List JsValue →
    List (JsValue × List JsValue)
  | [], k, v => [(k, v)]
  | p :: rest, k, v => if svzEq p.1 k then (p.1, v) :: rest else p :: mapSet rest k v

/-- One iteration of the `stepsById` loop: skip falsy records
(`if (!d) continue`), skip records without identifier, else map the
identifier to the record's steps list. -/
def buildStep (m : List (JsValue × List JsValue)) (d : JsValue) :
    List (JsValue × List JsValue) :=
  if truthyV d then
    match recIdSkip d with
    | some k => mapSet m k (stepsOf d)
    | none => m
  else m

/-- The `stepsById` map built from the detail records in load order. -/
def buildSteps (details : List JsValue) : List (JsValue × List JsValue) :=
  details.foldl buildStep []

/-- Object spread-with-override `{...fields, k: v}`: an existing key
keeps its position with the new value, a new key is appended. -/
def setField : List (Str × JsValue) → Str → JsValue → List (Str × JsValue)
  | [], k, v => [(k, v)]
  | p :: rest, k, v => if p.1 == k then (k, v) :: rest else p :: setField rest k v

/-- Source `stepsById.get(sid) || []` for a main record's identifier
(an array value from the map is truthy even when empty, so this is
exactly the stored list, defaulting to `[]` on a miss). -/
def stepsFor (m : List (JsValue × List JsValue)) (s : JsValue) : List JsValue :=
  match recId s with
  | some k => (mapGet m k).getD []
  | none => []

/-- Spread `{ ...s, steps: stepsById.get(sid) || [] }` for one main record.
(A null main record would make `s.id` throw in JS; the theorems below
are stated for object records.) -/
def augmentWith (m : List (JsValue × List JsValue)) (s : JsValue) : JsValue :=
  match s with
  | .obj fs => .obj (setField fs (strL "steps") (.arr (stepsFor m s)))
  | v => .obj [(strL "steps", .arr (stepsFor m v))]

/-- The `merged` list of `GET /api/scholarships`: every main record
augmented with its steps from the detail lookup. -/
def mergeScholarships (details main : List JsValue) : List JsValue :=
  main.map (augmentWith (buildSteps details))

/-- The country filter predicate of `GET /api/scholarships`. -/
def countryPass (cc : Str) (s : JsValue) : Bool :=
  (toLowerL (jsTrim (jsToString (jsOrV (jsGetProp s (strL "country"))
    (jsOrV (jsGetProp s (strL "country_region"))
      (jsOrV (jsGetProp s (strL "countryRegion")) (.str []))))))) == cc

/-- The level field `s.degree_levels || s.degreeLevels || s.levels`. -/
def levelsField (s : JsValue) : Option JsValue :=
  let a := jsGetProp s (strL "degree_levels")
  let b := jsGetProp s (strL "degreeLevels")
  let c := jsGetProp s (strL "levels")
  if optTruthy a then a else if optTruthy b then b else c

/-- The level filter predicate of `GET /api/scholarships`: an array
level field must contain the requested level after `String` coercion
of its elements, a string level field must equal it exactly, anything
else fails. -/
def levelPass (lvl : Str) (s : JsValue) : Bool :=
  match levelsField s with
  | some (.arr l) => (l.map jsToString).contains lvl
  | some (.str t) => t == lvl
  | _ => false

/-- The deadline filter predicate: a record with a falsy deadline
passes unconditionally, else its `String` form must be ≥ the filter
date (JS string comparison). -/
def deadlinePass (dl : Str) (s : JsValue) : Bool :=
  match jsGetProp s (strL "deadline") with
  | some w => if truthyV w then strGe (jsToString w) dl else true
  | none => true

/-- The text filter predicate: the lowercased query must occur in the
lowercased name/title or in the lowercased provider/organizer. -/
def qPass (qq : Str) (s : JsValue) : Bool :=
  strIncludes (toLowerL (jsToString (jsOrV (jsGetProp s (strL "name"))
    (jsOrV (jsGetProp s (strL "title")) (.str []))))) qq ||
  strIncludes (toLowerL (jsToString (jsOrV (jsGetProp s (strL "provider"))
    (jsOrV (jsGetProp s (strL "organizer")) (.str []))))) qq

/-- Handler `GET /api/scholarships` over already-loaded main/detail records:
merge, the four optional filters in order, then pagination. -/
def scholarshipsQuery (main details : List JsValue)
    (qP cP lP dP pP psP : Option Str) : Page JsValue :=
  let q := toLowerL (jsTrim (paramStr qP []))
  let country := jsTrim (paramStr cP [])
  let level := jsTrim (paramStr lP [])
  let deadline := jsTrim (paramStr dP [])
  let page := clampPage (jsParseInt (paramStr pP (strL "1")))
  let pageSize := clampPageSize (jsParseInt (paramStr psP (strL "20")))
  let merged := mergeScholarships details main
  let m1 := if country.isEmpty then merged
    else merged.filter (countryPass (toLowerL (jsTrim country)))
  let m2 := if level.isEmpty then m1 else m1.filter (levelPass (jsTrim level))
  let m3 := if deadline.isEmpty then m2 else m2.filter (deadlinePass deadline)
  let m4 := if q.isEmpty then m3 else m3.filter (qPass (toLowerL q))
  paginate m4 page pageSize

/-! ### Helper lemmas -/

theorem beqComm {α : Type} [BEq α] [LawfulBEq α] (a b : α) : (a == b) = (b == a) := by
  rw [Bool.eq_iff_iff]
  simp [beq_iff_eq]
  exact eq_comm

theorem svzEq_symm (a b : JsValue) : svzEq a b = svzEq b a := by
  cases a <;> cases b <;> first | rfl | apply beqComm

theorem svzEq_trans {a b c : JsValue} (h1 : svzEq a b = true) (h2 : svzEq b c = true) :
    svzEq a c = true := by
  cases a <;> cases b <;> cases c <;> simp_all [svzEq, beq_iff_eq]

theorem svzEq_refl_prim {a : JsValue} (h : a.primitiveB = true) : svzEq a a = true := by
  cases a <;> simp_all [svzEq, JsValue.primitiveB]

theorem mapGet_mapSet_hit (m : List (JsValue × List JsValue)) (k : JsValue)
    (v : List JsValue) {k' : JsValue} (h : svzEq k k' = true) :
    mapGet (mapSet m k v) k' = some v := by
  induction m with
  | nil => simp [mapSet, mapGet, List.find?, h]
  | cons p rest ih =>
    by_cases hp : svzEq p.1 k = true
    · have hpk : svzEq p.1 k' = true := svzEq_trans hp h
      simp [mapSet, hp, mapGet, List.find?, hpk]
    · have hp2 : svzEq p.1 k = false := by
        cases hx : svzEq p.1 k
        · rfl
        · exact absurd hx hp
      have hpk : svzEq p.1 k' = false := by
        cases hx : svzEq p.1 k'
        · rfl
        · exact absurd (svzEq_trans hx ((svzEq_symm k k') ▸ h)) hp
      simp only [mapSet, hp2, if_false, Bool.false_eq_true]
      simp only [mapGet, List.find?, hpk] at ih ⊢
      exact ih

theorem mapGet_mapSet_miss (m : List (JsValue × List JsValue)) (k : JsValue)
    (v : List JsValue) {k' : JsValue} (h : svzEq k k' = false) :
    mapGet (mapSet m k v) k' = mapGet m k' := by
  induction m with
  | nil => simp [mapSet, mapGet, List.find?, h]
  | cons p rest ih =>
    by_cases hp : svzEq p.1 k = true
    · have hpk : svzEq p.1 k' = false := by
        cases hx : svzEq p.1 k'
        · rfl
        · exact absurd (svzEq_trans ((svzEq_symm p.1 k) ▸ hp) hx) (by simp [h])
      simp [mapSet, hp, mapGet, List.find?, hpk]
    · have hp2 : svzEq p.1 k = false := by
        cases hx : svzEq p.1 k
        · rfl
        · exact absurd hx hp
      simp only [mapSet, hp2, if_false, Bool.false_eq_true]
      simp only [mapGet, List.find?] at ih ⊢
      cases hx : svzEq p.1 k'
      · simpa [hx] using ih
      · simp [hx]

theorem mapGet_congr (m : List (JsValue × List JsValue)) {k k' : JsValue}
    (h : svzEq k k' = true) : mapGet m k = mapGet m k' := by
  induction m with
  | nil => rfl
  | cons p rest ih =>
    have : svzEq p.1 k = svzEq p.1 k' := by
      cases hx : svzEq p.1 k
      · cases hy : svzEq p.1 k'
        · rfl
        · exact absurd (svzEq_trans hy ((svzEq_symm k k') ▸ h)) (by simp [hx])
      · cases hy : svzEq p.1 k'
        · exact absurd (svzEq_trans hx h) (by simp [hy])
        · rfl
    simp only [mapGet, List.find?] at ih ⊢
    rw [← this]
    cases hx : svzEq p.1 k
    · simpa using ih
    · rfl

theorem mapGet_foldl_untouched (l2 : List JsValue)
    (m : List (JsValue × List JsValue)) (k : JsValue)
    (h : ∀ d ∈ l2, ∀ j, truthyV d = true → recIdSkip d = some j → svzEq j k = false) :
    mapGet (l2.foldl buildStep m) k = mapGet m k := by
  induction l2 generalizing m with
  | nil => rfl
  | cons d rest ih =>
    have hrest : ∀ d2 ∈ rest, ∀ j, truthyV d2 = true → recIdSkip d2 = some j →
        svzEq j k = false := fun d2 hd2 j h1 h2 => h d2 (List.mem_cons_of_mem d hd2) j h1 h2
    rw [List.foldl_cons, ih (buildStep m d) hrest]
    unfold buildStep
    cases ht : truthyV d
    · rfl
    · cases hr : recIdSkip d with
      | none => rfl
      | some j =>
        simp only
        exact mapGet_mapSet_miss m j (stepsOf d) (h d (List.mem_cons_self d rest) j ht hr)

theorem mapGet_buildSteps_last_writer (pre post : List JsValue) (d : JsValue)
    (idv : JsValue) (hd : truthyV d = true) (hid : recIdSkip d = some idv)
    (hprim : idv.primitiveB = true)
    (hpost : ∀ d2 ∈ post, ∀ j, truthyV d2 = true → recIdSkip d2 = some j →
      svzEq j idv = false) :
    mapGet (buildSteps (pre ++ d :: post)) idv = some (stepsOf d) := by
  unfold buildSteps
  rw [List.foldl_append, List.foldl_cons]
  rw [mapGet_foldl_untouched post _ idv hpost]
  unfold buildStep
  rw [hd, hid]
  simp only
  exact mapGet_mapSet_hit _ idv (stepsOf d) (svzEq_refl_prim hprim)

theorem find?_setField_self (fs : List (Str × JsValue)) (k : Str) (v : JsValue) :
    (setField fs k v).find? (fun p => p.1 == k) = some (k, v) := by
  induction fs with
  | nil => simp [setField, List.find?]
  | cons p rest ih =>
    by_cases hp : p.1 = k
    · simp [setField, hp, List.find?]
    · have h1 : (p.1 == k) = false := by simp [hp]
      simp only [setField, h1, if_false, Bool.false_eq_true, List.find?, ih]

theorem find?_setField_other (fs : List (Str × JsValue)) (k : Str) (v : JsValue)
    {k' : Str} (h : k' ≠ k) :
    (setField fs k v).find? (fun p => p.1 == k') = fs.find? (fun p => p.1 == k') := by
  induction fs with
  | nil =>
    have : (k == k') = false := by rw [beq_eq_false_iff_ne]; exact Ne.symm h
    simp [setField, List.find?, this]
  | cons p rest ih =>
    by_cases hp : p.1 = k
    · have h1 : (p.1 == k) = true := by simp [hp]
      have h2 : (p.1 == k') = false := by
        rw [beq_eq_false_iff_ne, hp]; exact Ne.symm h
      have h3 : (k == k') = false := by rw [beq_eq_false_iff_ne]; exact Ne.symm h
      simp [setField, h1, List.find?, h2, h3]
    · have h1 : (p.1 == k) = false := by simp [hp]
      simp only [setField, h1, if_false, Bool.false_eq_true, List.find?]
      cases hx : p.1 == k'
      · simpa using ih
      · rfl

theorem jsGetProp_augmentWith_steps (m : List (JsValue × List JsValue)) (s : JsValue) :
    jsGetProp (augmentWith m s) (strL "steps") = some (.arr (stepsFor m s)) := by
  cases s <;> simp [augmentWith, jsGetProp, List.find?, find?_setField_self]

theorem jsGetProp_augmentWith_other (m : List (JsValue × List JsValue))
    (fs : List (Str × JsValue)) {k : Str} (h : k ≠ strL "steps") :
    jsGetProp (augmentWith m (.obj fs)) k = jsGetProp (.obj fs) k := by
  simp only [augmentWith, jsGetProp]
  rw [find?_setField_other fs (strL "steps") _ h]

theorem windowGo_eq_find (words : List Str) (s : Str) (k : Nat) :
    windowGo words s k =
      (match (ksDesc k).find?
          (fun j => strIncludes (toLowerL (joinSp (words.take (words.length - j))))
            (toLowerL (joinSp (words.drop (words.length - j))))) with
       | some j => jsTrim (joinSp (words.take (words.length - j)))
       | none => s) := by
  induction k using Nat.strong_induction_on with
  | _ k ih =>
    match k with
    | 0 => rfl
    | 1 => rfl
    | k + 2 =>
      simp only [windowGo, ksDesc, List.find?]
      cases hc : strIncludes (toLowerL (joinSp (words.take (words.length - (k + 2)))))
          (toLowerL (joinSp (words.drop (words.length - (k + 2)))))
      · simpa [hc] using ih (k + 1) (by omega)
      · simp [hc]

theorem loadJsonl_foldl (parse : Str → Option JsValue) (ls : List Str)
    (acc : List JsValue) :
    ls.foldl
      (fun out line =>
        if (jsTrim line).isEmpty then out
        else
          match parse line with
          | some v => out ++ [v]
          | none => out)
      acc
    = acc ++ (ls.filter (fun l => !(jsTrim l).isEmpty)).filterMap parse := by
  induction ls generalizing acc with
  | nil => simp
  | cons l rest ih =>
    simp only [List.foldl_cons, List.filter]
    cases he : (jsTrim l).isEmpty
    · simp only [he, Bool.false_eq_true, if_false, Bool.not_false]
      cases hp : parse l with
      | some v => rw [ih]; simp [List.filterMap_cons, hp]
      | none => rw [ih]; simp [List.filterMap_cons, hp]
    · simp only [he, if_true, Bool.not_true]
      rw [ih]

theorem resolveIdx_ofNat (a n : Nat) : resolveIdx (.int (a : Int)) n = min a n := by
  simp only [resolveIdx]
  rw [if_neg (by omega)]
  have : ((a : Int)).toNat = a := by omega
  rw [this]

theorem take_min_length {α : Type} (l : List α) (b : Nat) :
    l.take (min b l.length) = l.take b := by
  rcases le_total b l.length with h | h
  · rw [min_eq_left h]
  · rw [min_eq_right h, List.take_length, List.take_of_length_le h]

theorem jsSlice_nat {α : Type} (l : List α) (a b : Nat) :
    jsSlice l (.int (a : Int)) (.int (b : Int)) = (l.take b).drop a := by
  unfold jsSlice
  rw [resolveIdx_ofNat, resolveIdx_ofNat, take_min_length]
  rcases le_total a l.length with h | h
  · rw [min_eq_left h]
  · rw [min_eq_right h]
    have h1 : (l.take b).length ≤ l.length := by
      rw [List.length_take]
      omega
    rw [List.drop_of_length_le h1, List.drop_of_length_le (le_trans h1 h)]

/-! ### Claim theorems -/

/-- C5: colon rule of cleanTitle.  If the first-colon regex matches the
trimmed input with groups `m1`, `m2` and the lowercased trimmed prefix
contains the lowercased trimmed suffix as a substring, `cleanTitle`
returns the trimmed prefix. -/
theorem cleanTitle_colon_rule (s0 m1 m2 : Str)
    (h1 : jsColonMatch (jsTrim s0) = some (m1, m2))
    (h2 : strIncludes (toLowerL (jsTrim m1)) (toLowerL (jsTrim m2)) = true) :
    cleanTitleStr s0 = jsTrim m1 := by
  have hne : (jsTrim s0).isEmpty = false := by
    cases hx : (jsTrim s0).isEmpty
    · rfl
    · have hnil : jsTrim s0 = [] := by simpa using hx
      rw [hnil] at h1
      simp [jsColonMatch, jsColonMatchAux] at h1
  unfold cleanTitleStr
  simp only [hne, Bool.false_eq_true, if_false, h1, h2, if_true]

/-- Witness for C5: the specification's example
cleanTitle("Data Science: Data Science") = "Data Science". -/
theorem cleanTitle_colon_rule_witness :
    cleanTitleStr (strL "Data Science: Data Science") = strL "Data Science" := by
  have h := cleanTitle_colon_rule (strL "Data Science: Data Science")
    (strL "Data Science") (strL "Data Science") (by decide) (by decide)
  rw [h]
  decide

/-- C4: suffix-window rule of cleanTitle.  Whenever the colon rule does
not fire, cleanTitle computes exactly the specification's suffix-window
procedure on the trimmed string: try window length k from
min(8, floor(wordCount/2)) down to 2, largest first, and return the
trimmed prefix at the first k whose lowercased prefix contains the
lowercased last-k-words suffix, else the trimmed original. -/
theorem cleanTitle_suffix_window (s0 : Str) (h : colonFires (jsTrim s0) = false) :
    cleanTitleStr s0 = suffixWindowSpec (jsTrim s0) := by
  cases he : (jsTrim s0).isEmpty
  case true =>
    have hnil : jsTrim s0 = [] := by simpa using he
    have hl : cleanTitleStr s0 = [] := by
      unfold cleanTitleStr
      rw [hnil]
      rfl
    have hr : suffixWindowSpec (jsTrim s0) = [] := by
      rw [hnil]
      rfl
    rw [hl, hr]
  case false =>
    unfold cleanTitleStr
    simp only [he, Bool.false_eq_true, if_false]
    cases hm : jsColonMatch (jsTrim s0) with
    | none =>
      simp only [hm]
      unfold windowPart suffixWindowSpec
      exact windowGo_eq_find _ _ _
    | some pr =>
      obtain ⟨m1, m2⟩ := pr
      have hinc : strIncludes (toLowerL (jsTrim m1)) (toLowerL (jsTrim m2)) = false := by
        have hcf := h
        unfold colonFires at hcf
        rw [hm] at hcf
        exact hcf
      simp only [hm, hinc, Bool.false_eq_true, if_false]
      unfold windowPart suffixWindowSpec
      exact windowGo_eq_find _ _ _

/-- Witness for C4: the specification's example
cleanTitle("Master of Arts in Global Studies Global Studies") =
"Master of Arts in Global Studies" (and the colon rule indeed does not
fire on it). -/
theorem cleanTitle_suffix_window_witness :
    cleanTitleStr (strL "Master of Arts in Global Studies Global Studies")
      = strL "Master of Arts in Global Studies" := by
  have h := cleanTitle_suffix_window
    (strL "Master of Arts in Global Studies Global Studies") (by decide)
  rw [h]
  decide

/-- C6: pagination postcondition of the slice/total code shared by both
query handlers.  For integral clamped page ≥ 1 and pageSize ≥ 1, the
total is the filtered length (independent of page/pageSize), the data
is the contiguous order-preserving slice at zero-based offset
(page-1)*pageSize of length at most pageSize, and it is empty when the
offset reaches the filtered length. -/
theorem pagination_postcondition {α : Type} (l : List α) (p m : Nat)
    (hp : 1 ≤ p) (_hm : 1 ≤ m) :
    (paginate l (.int (p : Int)) (.int (m : Int))).total = l.length ∧
    (paginate l (.int (p : Int)) (.int (m : Int))).data
      = (l.drop ((p - 1) * m)).take m ∧
    (paginate l (.int (p : Int)) (.int (m : Int))).data.length ≤ m ∧
    (l.length ≤ (p - 1) * m →
      (paginate l (.int (p : Int)) (.int (m : Int))).data = []) := by
  have harith : jsMul (jsSub (.int (p : Int)) (.int 1)) (.int (m : Int))
      = .int (((p - 1) * m : Nat) : Int) := by
    simp only [jsSub, jsMul]
    congr 1
    push_cast [Nat.cast_sub hp]
    ring
  have harith2 : jsAdd (.int (((p - 1) * m : Nat) : Int)) (.int (m : Int))
      = .int ((((p - 1) * m + m : Nat)) : Int) := by
    simp only [jsAdd, Nat.cast_add]
  have hdata : (paginate l (.int (p : Int)) (.int (m : Int))).data
      = (l.drop ((p - 1) * m)).take m := by
    unfold paginate
    simp only [harith, harith2]
    rw [jsSlice_nat, ← List.take_drop]
  refine ⟨rfl, hdata, ?_, ?_⟩
  · rw [hdata, List.length_take]
    exact min_le_left _ _
  · intro hlen
    rw [hdata, List.drop_eq_nil_iff.mpr hlen]
    simp

/-- Witness for C6: page 2 of size 2 over five records is the slice
[30, 40] with total 5. -/
theorem pagination_postcondition_witness :
    (paginate ([10, 20, 30, 40, 50] : List Nat)
        (.int ((2 : Nat) : Int)) (.int ((2 : Nat) : Int))).data = [30, 40] ∧
    (paginate ([10, 20, 30, 40, 50] : List Nat)
        (.int ((2 : Nat) : Int)) (.int ((2 : Nat) : Int))).total = 5 := by
  have h := pagination_postcondition ([10, 20, 30, 40, 50] : List Nat) 2 2
    (by omega) (by omega)
  refine ⟨?_, h.1⟩
  rw [h.2.1]
  rfl

/-- C9: loadJsonl is best-effort line parsing: the text is split on
LF/CRLF line breaks, lines that trim to empty are skipped, each
remaining line goes through the JSON parser independently, failures
are silently dropped, and the result is exactly the successfully
parsed values in file order. -/
theorem loadJsonl_best_effort (parse : Str → Option JsValue) (text : Str) :
    loadJsonl parse text
      = ((splitCRLF text).filter (fun l => !(jsTrim l).isEmpty)).filterMap parse := by
  unfold loadJsonl
  rw [loadJsonl_foldl]
  simp

/-- C7: merge frame property.  The join preserves the count (and, via
the indexed correspondence, the order) of the main records, and each
augmented record agrees with its original on every field except steps,
while steps is exactly the lookup's list for the record's identifier
(the empty list on a miss or a missing identifier, which is what
stepsFor computes). -/
theorem merge_frame (details main : List JsValue) :
    (mergeScholarships details main).length = main.length ∧
    (∀ (i : Nat) (hi : i < main.length) (fs : List (Str × JsValue)),
      main.get ⟨i, hi⟩ = JsValue.obj fs →
      ∃ hi2 : i < (mergeScholarships details main).length,
        (∀ k : Str, k ≠ strL "steps" →
          jsGetProp ((mergeScholarships details main).get ⟨i, hi2⟩) k
            = jsGetProp (JsValue.obj fs) k) ∧
        jsGetProp ((mergeScholarships details main).get ⟨i, hi2⟩) (strL "steps")
          = some (.arr (stepsFor (buildSteps details) (JsValue.obj fs)))) := by
  have hlen : (mergeScholarships details main).length = main.length := by
    simp [mergeScholarships]
  refine ⟨hlen, ?_⟩
  intro i hi fs hobj
  have hi2 : i < (mergeScholarships details main).length := by rw [hlen]; exact hi
  have hget : (mergeScholarships details main).get ⟨i, hi2⟩
      = augmentWith (buildSteps details) (main.get ⟨i, hi⟩) := by
    simp [mergeScholarships, List.get_eq_getElem, List.getElem_map]
  refine ⟨hi2, ?_, ?_⟩
  · intro k hk
    rw [hget, hobj]
    exact jsGetProp_augmentWith_other _ fs hk
  · rw [hget, hobj]
    exact jsGetProp_augmentWith_steps _ _

/-- Witness for C7: a main record with no matching detail gets
steps = []. -/
theorem merge_frame_witness :
    ∃ hi2 : 0 < (mergeScholarships [] [JsValue.obj [(strL "id", JsValue.num 1)]]).length,
      jsGetProp ((mergeScholarships [] [JsValue.obj [(strL "id", JsValue.num 1)]]).get
        ⟨0, hi2⟩) (strL "steps") = some (JsValue.arr []) := by
  obtain ⟨hi2, _hframe, hsteps⟩ :=
    (merge_frame [] [JsValue.obj [(strL "id", JsValue.num 1)]]).2
      0 (by decide) [(strL "id", JsValue.num 1)] rfl
  refine ⟨hi2, ?_⟩
  rw [hsteps]
  rfl

/-- Counterexample to C1 as stated: the main identifier (number 5) and
the detail identifier (string "5") are loosely equal, yet the merged
record carries steps = [] rather than the detail's steps list, because
the Map join uses SameValueZero, which never identifies a number with
its string form. -/
theorem join_loose_equality_counterexample :
    jsLooseEq (JsValue.num 5) (JsValue.str (strL "5")) = true ∧
    (match (mergeScholarships
        [JsValue.obj [(strL "id", JsValue.str (strL "5")),
          (strL "steps", JsValue.arr [JsValue.str (strL "a")])]]
        [JsValue.obj [(strL "id", JsValue.num 5)]]).head? with
      | some v => jsGetProp v (strL "steps")
      | none => none) = some (JsValue.arr []) ∧
    JsValue.arr [] ≠ JsValue.arr [JsValue.str (strL "a")] := by
  refine ⟨rfl, rfl, ?_⟩
  intro h
  simp at h

/-- C1 (amended): the scholarship join keys on SameValueZero (strict,
type-sensitive) equality of identifier values, not loose equality: the
augmented record for a main record carries the steps list of the last
detail record (in load order) whose identifier is SameValueZero-equal
to the main record's identifier; a numeric identifier and its string
form do not join. -/
theorem join_sameValueZero_last_writer (pre post : List JsValue) (d m : JsValue)
    (idv sidv : JsValue)
    (hd : truthyV d = true) (hid : recIdSkip d = some idv)
    (hprim : idv.primitiveB = true)
    (hpost : ∀ d2 ∈ post, ∀ j, truthyV d2 = true → recIdSkip d2 = some j →
      svzEq j idv = false)
    (hm : recId m = some sidv) (hsv : svzEq sidv idv = true) :
    jsGetProp (augmentWith (buildSteps (pre ++ d :: post)) m) (strL "steps")
      = some (.arr (stepsOf d)) := by
  have hsteps : stepsFor (buildSteps (pre ++ d :: post)) m = stepsOf d := by
    unfold stepsFor
    rw [hm]
    show (mapGet (buildSteps (pre ++ d :: post)) sidv).getD [] = stepsOf d
    rw [mapGet_congr _ hsv,
      mapGet_buildSteps_last_writer pre post d idv hd hid hprim hpost]
    rfl
  rw [jsGetProp_augmentWith_steps, hsteps]

/-- Witness for C1 (amended): identical numeric identifiers join and
attach the detail's steps list. -/
theorem join_sameValueZero_last_writer_witness :
    jsGetProp (augmentWith
        (buildSteps ([] ++ JsValue.obj [(strL "id", JsValue.num 7),
          (strL "steps", JsValue.arr [JsValue.str (strL "x")])] :: []))
        (JsValue.obj [(strL "id", JsValue.num 7)]))
      (strL "steps") = some (JsValue.arr [JsValue.str (strL "x")]) := by
  have h := join_sameValueZero_last_writer [] []
    (JsValue.obj [(strL "id", JsValue.num 7),
      (strL "steps", JsValue.arr [JsValue.str (strL "x")])])
    (JsValue.obj [(strL "id", JsValue.num 7)])
    (JsValue.num 7) (JsValue.num 7)
    rfl rfl rfl (fun d2 hd2 => absurd hd2 (List.not_mem_nil d2))
    rfl rfl
  exact h

/-- C8: the scholarship level filter.  With a (non-empty) requested
level, a record passes iff its level field (the || chain over
degree_levels, degreeLevels, levels) is an array containing the level
after String coercion of its elements, or is a string exactly equal to
the level; any other shape (missing field included) fails. -/
theorem level_filter_characterization (s : JsValue) (lvl : Str) (_hlvl : lvl ≠ []) :
    levelPass lvl s = true ↔
      ((∃ l, levelsField s = some (.arr l) ∧ lvl ∈ l.map jsToString) ∨
       (∃ t, levelsField s = some (.str t) ∧ t = lvl)) := by
  unfold levelPass
  cases hf : levelsField s with
  | none => simp
  | some v =>
    cases v with
    | arr l => simp [List.contains, List.elem_iff]
    | str t => simp [beq_iff_eq]
    | null => simp
    | bool b => simp
    | num n => simp
    | obj fs2 => simp

/-- Witness for C8: a numeric array element 5 is coerced to "5" and
matches the requested level "5". -/
theorem level_filter_characterization_witness :
    levelPass (strL "5") (JsValue.obj [(strL "degree_levels",
      JsValue.arr [JsValue.str (strL "MSc"), JsValue.num 5])]) = true := by
  have h := level_filter_characterization
    (JsValue.obj [(strL "degree_levels",
      JsValue.arr [JsValue.str (strL "MSc"), JsValue.num 5])])
    (strL "5") (by decide)
  exact h.mpr (Or.inl ⟨[JsValue.str (strL "MSc"), JsValue.num 5], rfl, by decide⟩)

/-- Counterexample to C3 as stated: for the non-numeric page string
"abc", parseInt is NaN, Math.max(1, NaN) is NaN -- not an integer ≥ 1
-- and the resulting slice is empty instead of behaving like page 1. -/
theorem page_nan_counterexample :
    ((∃ n : Int, 1 ≤ n ∧ clampPage (jsParseInt (strL "abc")) = JsNum.int n) → False) ∧
    clampPage (jsParseInt (strL "abc")) = JsNum.nan ∧
    (paginate [JsValue.null, JsValue.null, JsValue.null]
        (clampPage (jsParseInt (strL "abc"))) (JsNum.int 20)).data = [] ∧
    (paginate [JsValue.null, JsValue.null, JsValue.null]
        (JsNum.int 1) (JsNum.int 20)).data
      = [JsValue.null, JsValue.null, JsValue.null] := by
  refine ⟨?_, rfl, rfl, rfl⟩
  rintro ⟨n, _hn, h⟩
  exact JsNum.noConfusion h

/-- C3 (amended): for every page/pageSize input string on which
parseInt yields a number (an optional sign and leading digits), both
handlers coerce and clamp as claimed: the effective page is the
integer max(1, parsed) ≥ 1 and the effective pageSize is the integer
min(50, max(1, parsed)) in [1, 50]; when parseInt yields NaN the
effective value is NaN and the data slice is empty. -/
theorem page_pageSize_clamp (sp ss : Str) (kp ks : Int)
    (h1 : jsParseInt sp = .int kp) (h2 : jsParseInt ss = .int ks) :
    clampPage (jsParseInt sp) = .int (max 1 kp) ∧
    1 ≤ max 1 kp ∧
    clampPageSize (jsParseInt ss) = .int (min 50 (max 1 ks)) ∧
    1 ≤ min 50 (max 1 ks) ∧ min 50 (max 1 ks) ≤ 50 := by
  rw [h1, h2]
  refine ⟨rfl, le_max_left 1 kp, rfl, ?_, min_le_left _ _⟩
  have := le_max_left 1 ks
  omega

/-- Witness for C3 (amended): page=0 clamps to 1, pageSize=1000 clamps
to 50, pageSize=0 clamps to 1. -/
theorem page_pageSize_clamp_witness :
    clampPage (jsParseInt (strL "0")) = JsNum.int 1 ∧
    clampPageSize (jsParseInt (strL "1000")) = JsNum.int 50 ∧
    clampPageSize (jsParseInt (strL "0")) = JsNum.int 1 := by
  have h1 := page_pageSize_clamp (strL "0") (strL "1000") 0 1000 rfl rfl
  have h2 := page_pageSize_clamp (strL "0") (strL "0") 0 0 rfl rfl
  refine ⟨?_, ?_, ?_⟩
  · rw [h1.1]
    decide
  · rw [h1.2.2.1]
    decide
  · rw [h2.2.2.1]
    decide

/-- Counterexample to C2 as stated: the unsupported country value
"constructor" names an inherited Object.prototype property, so
COUNTRY_FILES[country] is truthy, the 400 branch is skipped, and the
request ends in a 500 server error instead of the claimed 400. -/
theorem unsupported_country_prototype_counterexample :
    courseCountryGate (some (strL "constructor")) = CountryGate.protoCrash ∧
    (∀ (fsv : Str → List JsValue) (qP pP psP : Option Str),
      courseHandler (some (strL "constructor")) fsv qP pP psP
        = CourseResp.serverError) ∧
    CountryGate.protoCrash ≠ CountryGate.reject ∧
    CourseResp.serverError ≠ CourseResp.badRequest := by
  refine ⟨rfl, fun fsv qP pP psP => rfl, by decide, fun h => CourseResp.noConfusion h⟩

/-- C2 (amended): every country value that is not one of the four
supported origins and whose lowercased form is not an inherited
Object.prototype property name is rejected with 400 (Unsupported
country) before any data file is consulted -- the response does not
depend on the filesystem at all; the inherited names (after
lowercasing: "constructor" and "__proto__") instead surface as a 500. -/
theorem unsupported_country_rejected_400 (cp : Option Str)
    (h1 : lookupAssoc COUNTRY_FILES (rawCountry cp) = none)
    (h2 : objectProtoKeys.contains (rawCountry cp) = false) :
    ∀ (fsv : Str → List JsValue) (qP pP psP : Option Str),
      courseHandler cp fsv qP pP psP = CourseResp.badRequest := by
  intro fsv qP pP psP
  simp only [courseHandler, courseCountryGate, h1, h2, Bool.false_eq_true, if_false]

/-- Witness for C2 (amended): country=france yields the 400 client
error whatever the data files hold. -/
theorem unsupported_country_rejected_400_witness :
    courseHandler (some (strL "france")) (fun _ => []) none none none
      = CourseResp.badRequest :=
  unsupported_country_rejected_400 (some (strL "france")) rfl rfl
    (fun _ => []) none none none

/-- C10: with the country parameter absent or empty, /api/courses does
not reject: it behaves exactly as country=germany, loading the germany
backing file (and hence applying the germany title rule). -/
theorem default_origin_germany :
    (∀ (fsv : Str → List JsValue) (qP pP psP : Option Str),
      courseHandler none fsv qP pP psP
        = courseHandler (some (strL "germany")) fsv qP pP psP ∧
      courseHandler (some []) fsv qP pP psP
        = courseHandler (some (strL "germany")) fsv qP pP psP ∧
      courseHandler none fsv qP pP psP ≠ CourseResp.badRequest) ∧
    courseCountryGate none
      = CountryGate.load (strL "germany") (strL "daad_programmes.jsonl") ∧
    courseCountryGate (some [])
      = CountryGate.load (strL "germany") (strL "daad_programmes.jsonl") := by
  exact ⟨fun fsv qP pP psP => ⟨rfl, rfl, fun h => CourseResp.noConfusion h⟩, rfl, rfl⟩
